import Mathlib

/-!
Verification of the categorical-encoding library (`category_encoding.py`) and the
model-evaluation script (`model_evaluation.py`).

The Python classes are shallowly embedded: each instance's attributes become a
structure, each method becomes a function on that structure, numpy arrays become
lists, and Python dicts / `collections.Counter` become association lists.
Python strings are modeled as lists of characters (`PyStr`), ordered
lexicographically by code point exactly as Python orders strings.
Floating-point arithmetic is idealised as exact arithmetic (`ℚ`/`ℝ`, or a
generic field); the seeded Gaussian generator `np.random` is modeled as an
explicit function from seed and draw index to the drawn value.
-/

/-- A Python string: a list of characters, compared lexicographically by code
point (Python's string ordering). -/
abbrev PyStr := List Char

/-- `np.unique(X)`: the distinct elements of `X` in ascending sorted order. -/
def npUnique {α : Type} [LinearOrder α] [DecidableEq α] (X : List α) : List α :=
  List.insertionSort (· ≤ ·) X.dedup

/-- `bisect.insort_left(l, x)` on a sorted list `l`: insert `x` at the leftmost
position that keeps the list sorted. -/
def insortLeft {α : Type} [LinearOrder α] (x : α) : List α → List α
  | [] => [x]
  | a :: t => if x ≤ a then x :: a :: t else a :: insortLeft x t

/-- Python dict lookup on an association list: first binding of the key wins. -/
def lookupD {α β : Type} [DecidableEq α] (k : α) : List (α × β) → Option β
  | [] => none
  | p :: t => if p.1 = k then some p.2 else lookupD k t

/-- The position of `a` in the list `l` (first occurrence).  On the sorted,
duplicate-free class list this is exactly sklearn's
`LabelEncoder.transform` code (`np.searchsorted` into `classes_`). -/
def indexOfD {α : Type} [DecidableEq α] (a : α) : List α → Nat
  | [] => 0
  | b :: t => if b = a then 0 else indexOfD a t + 1

theorem indexOfD_inj {α : Type} [DecidableEq α] {a b : α} {l : List α}
    (ha : a ∈ l) (hb : b ∈ l) (h : indexOfD a l = indexOfD b l) : a = b := by
  induction l with
  | nil => cases ha
  | cons c t ih =>
    rw [indexOfD, indexOfD] at h
    by_cases hca : c = a
    · by_cases hcb : c = b
      · exact hca.symm.trans hcb
      · rw [if_pos hca, if_neg hcb] at h
        exact absurd h.symm (Nat.succ_ne_zero _)
    · by_cases hcb : c = b
      · rw [if_neg hca, if_pos hcb] at h
        exact absurd h (Nat.succ_ne_zero _)
      · rw [if_neg hca, if_neg hcb] at h
        have hat : a ∈ t := (List.mem_cons.mp ha).resolve_left (fun he => hca he.symm)
        have hbt : b ∈ t := (List.mem_cons.mp hb).resolve_left (fun he => hcb he.symm)
        exact ih hat hbt (Nat.succ_injective h)

namespace labelencoder

/-- The string-sentinel probing loop of `labelencoder.fit` (lines 42, 44-45):
starting from `'<unknown>'`, append `'*'` while the candidate is among the
observed values.  `fuel` bounds the number of iterations; `l.length + 1`
iterations always suffice (`strProbe_not_mem`). -/
def strProbe (l : List PyStr) : Nat → PyStr → PyStr
  | 0, t => t
  | n + 1, t => if t ∈ l then strProbe l n (t ++ ['*']) else t

/-- One iteration of the numeric-sentinel loop of `labelencoder.fit` (line 47):
`t2 -= t2`, which replaces `t2` by `t2 - t2 = 0`. -/
def numStep (t : Int) : Int := t - t

/-- The numeric-sentinel probing loop of `labelencoder.fit` (lines 43, 46-47):
starting from `-999`, run `t2 -= t2` while the candidate is among the observed
values.  Returns `some t` if the loop exits within `fuel` iterations with final
candidate `t`, and `none` if the guard is still true after `fuel` iterations
(the Python loop is still running). -/
def numProbe (l : List Int) : Nat → Int → Option Int
  | 0, _ => none
  | n + 1, t => if t ∈ l then numProbe l n (numStep t) else some t

/-- The fitted state of a `labelencoder` instance: the attribute
`self.encoder.classes_` (sorted observed values with the sentinel inserted) and
the attribute `self.unknown` (the sentinel). -/
structure State where
  classes : List PyStr
  unknown : PyStr
deriving DecidableEq

/-- `labelencoder.fit` (lines 35-60) on a string-valued column: compute the
sorted distinct values, probe for a collision-free string sentinel, and insert
it into the sorted class list (`bisect.insort_left`, line 54; for string
classes the insertion succeeds and the string sentinel is kept). -/
def fit (X : List PyStr) : State :=
  let l := npUnique X
  let t1 := strProbe l (l.length + 1) "<unknown>".toList
  { classes := insortLeft t1 l, unknown := t1 }

/-- `labelencoder.fit` (lines 35-60) on a numeric column: the string-sentinel
loop exits at once (`'<unknown>'` is never an element of a numeric array), the
numeric loop runs (lines 46-47), and for a nonempty numeric class list the
`bisect.insort_left` of the string sentinel raises `TypeError`, so the numeric
sentinel `t2` is inserted instead (lines 56-58).  Returns the pair
`(classes, unknown)`, or `none` if the numeric loop has not exited after
`fuel` iterations. -/
def fitNum (X : List Int) (fuel : Nat) : Option (List Int × Int) :=
  let l := npUnique X
  match numProbe l fuel (-999) with
  | none => none
  | some t2 => some (insortLeft t2 l, t2)

/-- `labelencoder.transform` (lines 62-68): replace each value absent from
`classes_` by the sentinel, then encode each value as its position in the
sorted class list (sklearn's `LabelEncoder.transform`). -/
def transform (s : State) (X : List PyStr) : List Nat :=
  X.map fun x => indexOfD (if x ∈ s.classes then x else s.unknown) s.classes

end labelencoder

/-! ### Basic facts about the embedded primitives -/

theorem npUnique_perm_dedup {α : Type} [LinearOrder α] [DecidableEq α] (X : List α) :
    List.Perm (npUnique X) X.dedup :=
  List.perm_insertionSort _ _

theorem npUnique_nodup {α : Type} [LinearOrder α] [DecidableEq α] (X : List α) :
    (npUnique X).Nodup :=
  ((npUnique_perm_dedup X).nodup_iff).mpr (List.nodup_dedup X)

theorem mem_npUnique {α : Type} [LinearOrder α] [DecidableEq α] {X : List α} {a : α} :
    a ∈ npUnique X ↔ a ∈ X := by
  rw [(npUnique_perm_dedup X).mem_iff, List.mem_dedup]

theorem npUnique_sorted {α : Type} [LinearOrder α] [DecidableEq α] (X : List α) :
    (npUnique X).Sorted (· ≤ ·) :=
  List.sorted_insertionSort _ _

theorem mem_insortLeft {α : Type} [LinearOrder α] {x a : α} {l : List α} :
    a ∈ insortLeft x l ↔ a = x ∨ a ∈ l := by
  induction l with
  | nil => simp [insortLeft]
  | cons b t ih =>
    rw [insortLeft]
    split
    · simp
    · simp only [List.mem_cons, ih]
      tauto

theorem insortLeft_nodup {α : Type} [LinearOrder α] {x : α} {l : List α}
    (hx : x ∉ l) (h : l.Nodup) : (insortLeft x l).Nodup := by
  induction l with
  | nil => simp [insortLeft]
  | cons b t ih =>
    rw [insortLeft]
    have hxb : x ≠ b := fun he => hx (he ▸ List.mem_cons_self b t)
    have hxt : x ∉ t := fun he => hx (List.mem_cons_of_mem b he)
    split
    · exact List.nodup_cons.mpr ⟨by simp [hxb, hxt], h⟩
    · rcases List.nodup_cons.mp h with ⟨hbt, ht⟩
      refine List.nodup_cons.mpr ⟨?_, ih hxt ht⟩
      rw [mem_insortLeft]
      rintro (he | he)
      · exact hxb he.symm
      · exact hbt he

theorem length_insortLeft {α : Type} [LinearOrder α] (x : α) (l : List α) :
    (insortLeft x l).length = l.length + 1 := by
  induction l with
  | nil => rfl
  | cons b t ih =>
    rw [insortLeft]
    split
    · rfl
    · simp [ih]

namespace labelencoder

/-- The string-sentinel loop terminates with a collision-free sentinel:
`l.length + 1` candidates of strictly increasing length cannot all collide. -/
theorem strProbe_not_mem (l : List PyStr) :
    ∀ (fuel : Nat) (t : PyStr),
      (l.filter fun s => decide (t.length ≤ s.length)).length < fuel →
      strProbe l fuel t ∉ l := by
  intro fuel
  induction fuel with
  | zero => intro t h; omega
  | succ n ih =>
    intro t h
    rw [strProbe]
    split
    case isTrue ht =>
      apply ih
      have hmono : ∀ s : PyStr,
          (fun s => decide ((t ++ ['*']).length ≤ s.length)) s = true →
          (fun s => decide (t.length ≤ s.length)) s = true := by
        intro s hs
        simp only [decide_eq_true_eq, List.length_append, List.length_singleton] at hs ⊢
        omega
      have hsub := List.monotone_filter_right l hmono
      have hne : l.filter (fun s => decide ((t ++ ['*']).length ≤ s.length)) ≠
          l.filter (fun s => decide (t.length ≤ s.length)) := by
        intro he
        have htin : t ∈ l.filter (fun s => decide (t.length ≤ s.length)) :=
          List.mem_filter.mpr ⟨ht, by simp⟩
        rw [← he] at htin
        have := (List.mem_filter.mp htin).2
        simp only [decide_eq_true_eq, List.length_append, List.length_singleton] at this
        omega
      have hlt : (l.filter fun s => decide ((t ++ ['*']).length ≤ s.length)).length <
          (l.filter fun s => decide (t.length ≤ s.length)).length := by
        rcases Nat.lt_or_ge (l.filter fun s => decide ((t ++ ['*']).length ≤ s.length)).length
            (l.filter fun s => decide (t.length ≤ s.length)).length with hlt | hge
        · exact hlt
        · exact absurd (hsub.eq_of_length (Nat.le_antisymm hsub.length_le hge)) hne
      omega
    case isFalse ht => exact ht

theorem fit_unknown_not_mem (X : List PyStr) : (fit X).unknown ∉ npUnique X := by
  apply strProbe_not_mem
  have := List.length_filter_le
    (fun s : PyStr => decide (("<unknown>".toList).length ≤ s.length)) (npUnique X)
  omega

theorem fit_classes_eq (X : List PyStr) :
    (fit X).classes = insortLeft (fit X).unknown (npUnique X) := rfl

theorem fit_classes_nodup (X : List PyStr) : (fit X).classes.Nodup := by
  rw [fit_classes_eq]
  exact insortLeft_nodup (fit_unknown_not_mem X) (npUnique_nodup X)

theorem mem_fit_classes {X : List PyStr} {a : PyStr} :
    a ∈ (fit X).classes ↔ a = (fit X).unknown ∨ a ∈ X := by
  rw [fit_classes_eq, mem_insortLeft, mem_npUnique]

theorem transform_map (s : State) (X : List PyStr) :
    transform s X = X.map fun x => indexOfD (if x ∈ s.classes then x else s.unknown) s.classes :=
  rfl

theorem transform_singleton_of_mem {X v} (hv : v ∈ X) :
    transform (fit X) [v] = [indexOfD v (fit X).classes] := by
  have hc : v ∈ (fit X).classes := mem_fit_classes.mpr (Or.inr hv)
  simp [transform, if_pos hc]

theorem transform_singleton_of_not_mem {X v} (hv : v ∉ X) :
    transform (fit X) [v] = [indexOfD (fit X).unknown (fit X).classes] := by
  by_cases hc : v ∈ (fit X).classes
  · have hvu : v = (fit X).unknown := by
      rcases mem_fit_classes.mp hc with h | h
      · exact h
      · exact absurd h hv
    simp [transform, if_pos hc, hvu]
  · simp [transform, if_neg hc]

theorem numProbe_zero_mem {l : List Int} (h0 : (0 : Int) ∈ l) :
    ∀ fuel, numProbe l fuel 0 = none := by
  intro fuel
  induction fuel with
  | zero => rfl
  | succ n ih =>
    rw [numProbe, if_pos h0]
    simpa [numStep] using ih

end labelencoder

/-! ### Claim C3: sentinel probing loops -/

/-- C3 (code_bug evidence): on a numeric column containing both -999 and 0, the
numeric sentinel loop of `labelencoder.fit` never terminates: the mutation
`t2 -= t2` replaces the candidate by 0, which is itself an observed value and
is a fixed point of the mutation.  Whatever iteration bound is allowed, the
loop guard is still true, so `fit` never returns. -/
theorem C3_numeric_sentinel_loop_diverges :
    ∀ fuel : Nat, labelencoder.fitNum [-999, 0] fuel = none := by
  intro fuel
  have hl : npUnique [(-999 : Int), 0] = [-999, 0] := by decide
  have hprobe : ∀ f, labelencoder.numProbe [(-999 : Int), 0] f (-999) = none := by
    intro f
    cases f with
    | zero => rfl
    | succ n =>
      rw [labelencoder.numProbe, if_pos (by decide : (-999 : Int) ∈ [-999, 0])]
      have hstep : labelencoder.numStep (-999) = 0 := by norm_num [labelencoder.numStep]
      rw [hstep]
      exact labelencoder.numProbe_zero_mem (by decide) n
  simp only [labelencoder.fitNum, hl, hprobe fuel]

/-! ### Claim C4: label-encoder transform and the unknown code -/

/-- C4 (amended): `labelencoder.transform` maps every value absent from the
fit-time vocabulary to the single code assigned to the sentinel — its position
in the sorted class list — and every fit-time value to its own code; in the
documented example `fit(['a','b','c']); transform(['a','v','d'])` the sentinel
code is 0 and the result is `[1, 0, 0]`. -/
theorem C4_label_transform_unknown_code (X : List PyStr) (v : PyStr) (hv : v ∉ X) :
    labelencoder.transform (labelencoder.fit X) [v] =
      [indexOfD (labelencoder.fit X).unknown (labelencoder.fit X).classes] ∧
    (∀ w ∈ X, labelencoder.transform (labelencoder.fit X) [w] =
      [indexOfD w (labelencoder.fit X).classes]) ∧
    labelencoder.transform (labelencoder.fit ["a".toList, "b".toList, "c".toList])
      ["a".toList, "v".toList, "d".toList] = [1, 0, 0] :=
  ⟨labelencoder.transform_singleton_of_not_mem hv,
   fun _ hw => labelencoder.transform_singleton_of_mem hw,
   by decide⟩

theorem C4_label_transform_unknown_code_witness :
    ("z".toList ∉ [("x".toList : PyStr)]) ∧
    labelencoder.transform (labelencoder.fit ["x".toList]) ["z".toList] =
      [indexOfD (labelencoder.fit ["x".toList]).unknown (labelencoder.fit ["x".toList]).classes] :=
  ⟨by decide, (C4_label_transform_unknown_code ["x".toList] "z".toList (by decide)).1⟩

/-- C4 counterexample: after `fit(['!'])` the sorted class list is
`['!', '<unknown>']`, the sentinel receives code 1, and the unseen value `'z'`
is encoded 1, not the claimed reserved code 0. -/
theorem C4_counterexample :
    labelencoder.transform (labelencoder.fit ["!".toList]) ["z".toList] = [1] ∧
    labelencoder.transform (labelencoder.fit ["!".toList]) ["z".toList] ≠ [0] := by
  decide

/-! ### One-hot encoder -/

theorem le_foldl_max_init : ∀ (cs : List Nat) (c : Nat), c ≤ cs.foldl max c := by
  intro cs
  induction cs with
  | nil => intro c; exact Nat.le_refl c
  | cons d t ih => intro c; exact Nat.le_trans (Nat.le_max_left c d) (ih (max c d))

theorem le_foldl_max_mem : ∀ (cs : List Nat) (c a : Nat), a ∈ cs → a ≤ cs.foldl max c := by
  intro cs
  induction cs with
  | nil => intro c a h; cases h
  | cons d t ih =>
    intro c a h
    rcases List.mem_cons.mp h with he | ht
    · rw [he]
      exact Nat.le_trans (Nat.le_max_right c d) (le_foldl_max_init t (max c d))
    · exact ih (max c d) a ht

namespace onehotencoder

/-- The fitted state of a `onehotencoder` instance: the inner robust label
encoder (`self.le`) and the wrapped sklearn `OneHotEncoder` (`self.encoder`;
this code's vintage, with `n_values='auto'` and the default
`handle_unknown='error'`): its `n_values_` is the largest fit-time code plus
one, and its active output columns (`active_features_`) are the distinct code
values observed at fit time, in ascending order. -/
structure State where
  le : labelencoder.State
  n_values : Nat
  activeCols : List Nat

/-- `onehotencoder.fit` (lines 96-116): fit the robust label encoder, encode
the fit column with it, and fit the wrapped `OneHotEncoder` on the integer
codes: `n_values_ = max(codes) + 1`, one active column per distinct code.
`none` models the error the wrapped encoder raises on an empty column
(`np.max` of an empty array). -/
def fit (X : List PyStr) : Option State :=
  match labelencoder.transform (labelencoder.fit X) X with
  | [] => none
  | c :: cs => some { le := labelencoder.fit X, n_values := cs.foldl max c + 1,
                      activeCols := npUnique (c :: cs) }

/-- One encoded row of the fitted one-hot encoder: the indicator of an
in-range code `c` over the active columns.  An in-range code with no active
column yields the all-zero row, the behaviour documented in the class
docstring (lines 84-88). -/
def row (s : State) (c : Nat) : List Nat :=
  s.activeCols.map fun a => if a = c then 1 else 0

/-- `onehotencoder.transform` (lines 118-124): label-encode the values with
the inner robust label encoder, then have the wrapped encoder expand each
code.  With the default `handle_unknown='error'`, a code outside
`[0, n_values_)` — the sentinel's code whenever the sentinel sorts after every
observed category — raises `ValueError`; otherwise each code becomes its
indicator row over the active columns. -/
def transform (s : State) (X : List PyStr) : Except String (List (List Nat)) :=
  let codes := labelencoder.transform s.le X
  if codes.all fun c => decide (c < s.n_values) then Except.ok (codes.map (row s))
  else Except.error "unknown categorical feature present during transform"

end onehotencoder

theorem sum_map_indicator (l : List Nat) (c : Nat) :
    (l.map fun a => if a = c then 1 else 0).sum = l.count c := by
  induction l with
  | nil => rfl
  | cons b t ih =>
    simp only [List.map_cons, List.sum_cons, ih, List.count_cons]
    by_cases h : b = c
    · simp [h, Nat.add_comm]
    · simp [h, fun he : c = b => h he.symm]

namespace onehotencoder

theorem fit_eq_some {X : List PyStr} {st : State} (h : fit X = some st) :
    ∃ c cs, labelencoder.transform (labelencoder.fit X) X = c :: cs ∧
      st.le = labelencoder.fit X ∧ st.n_values = cs.foldl max c + 1 ∧
      st.activeCols = npUnique (c :: cs) := by
  cases hc : labelencoder.transform (labelencoder.fit X) X with
  | nil =>
    simp only [fit, hc] at h
    exact Option.noConfusion h
  | cons c cs =>
    simp only [fit, hc, Option.some.injEq] at h
    exact ⟨c, cs, rfl, by rw [← h], by rw [← h], by rw [← h]⟩

theorem indexOf_mem_active {X : List PyStr} {v : PyStr} (hv : v ∈ X) :
    indexOfD v (labelencoder.fit X).classes ∈
      npUnique (labelencoder.transform (labelencoder.fit X) X) := by
  rw [mem_npUnique, labelencoder.transform_map]
  have hc : v ∈ (labelencoder.fit X).classes :=
    labelencoder.mem_fit_classes.mpr (Or.inr hv)
  refine List.mem_map.mpr ⟨v, hv, ?_⟩
  rw [if_pos hc]

theorem indexOf_unknown_not_mem_active (X : List PyStr) :
    indexOfD (labelencoder.fit X).unknown (labelencoder.fit X).classes ∉
      npUnique (labelencoder.transform (labelencoder.fit X) X) := by
  rw [mem_npUnique, labelencoder.transform_map]
  intro hmem
  rcases List.mem_map.mp hmem with ⟨x, hxX, hx⟩
  have hxc : x ∈ (labelencoder.fit X).classes :=
    labelencoder.mem_fit_classes.mpr (Or.inr hxX)
  rw [if_pos hxc] at hx
  have huc : (labelencoder.fit X).unknown ∈ (labelencoder.fit X).classes :=
    labelencoder.mem_fit_classes.mpr (Or.inl rfl)
  have hxu : x = (labelencoder.fit X).unknown := indexOfD_inj hxc huc hx
  exact labelencoder.fit_unknown_not_mem X (mem_npUnique.mpr (hxu ▸ hxX))

/-- The number of active columns equals the number of distinct fit-time
categories: the code map is injective on the observed values, and the sentinel
code never occurs in the fit-time codes. -/
theorem active_length (X : List PyStr) :
    (npUnique (labelencoder.transform (labelencoder.fit X) X)).length =
      (npUnique X).length := by
  rw [labelencoder.transform_map]
  have h1 : ∀ L : List Nat, (npUnique L).length = L.dedup.length :=
    fun L => (npUnique_perm_dedup L).length_eq
  have h2 : ∀ L : List Nat, L.dedup.length = L.toFinset.card :=
    fun L => (List.card_toFinset L).symm
  have h1s : ∀ L : List PyStr, (npUnique L).length = L.dedup.length :=
    fun L => (npUnique_perm_dedup L).length_eq
  have h2s : ∀ L : List PyStr, L.dedup.length = L.toFinset.card :=
    fun L => (List.card_toFinset L).symm
  rw [h1, h2, h1s, h2s]
  have hmap : (X.map fun x =>
      indexOfD
        (if x ∈ (labelencoder.fit X).classes then x else (labelencoder.fit X).unknown)
        (labelencoder.fit X).classes).toFinset
      = X.toFinset.image (fun x =>
      indexOfD
        (if x ∈ (labelencoder.fit X).classes then x else (labelencoder.fit X).unknown)
        (labelencoder.fit X).classes) := by
    ext b; simp
  rw [hmap]
  apply Finset.card_image_of_injOn
  intro a ha b hb hab
  have haX : a ∈ X := List.mem_toFinset.mp ha
  have hbX : b ∈ X := List.mem_toFinset.mp hb
  have hac : a ∈ (labelencoder.fit X).classes :=
    labelencoder.mem_fit_classes.mpr (Or.inr haX)
  have hbc : b ∈ (labelencoder.fit X).classes :=
    labelencoder.mem_fit_classes.mpr (Or.inr hbX)
  simp only [if_pos hac, if_pos hbc] at hab
  exact indexOfD_inj hac hbc hab

/-- A fit-time value's code is within the wrapped encoder's range
`[0, n_values_)`: it occurs among the fit-time codes, whose maximum defines
`n_values_ - 1`. -/
theorem code_lt_n_values {X : List PyStr} {v : PyStr} (hv : v ∈ X) {c : Nat}
    {cs : List Nat} (hc : labelencoder.transform (labelencoder.fit X) X = c :: cs) :
    indexOfD v (labelencoder.fit X).classes < cs.foldl max c + 1 := by
  have hmem : indexOfD v (labelencoder.fit X).classes ∈ c :: cs := by
    rw [← hc, labelencoder.transform_map]
    refine List.mem_map.mpr ⟨v, hv, ?_⟩
    rw [if_pos (labelencoder.mem_fit_classes.mpr (Or.inr hv))]
  have hle : indexOfD v (labelencoder.fit X).classes ≤ cs.foldl max c := by
    rcases List.mem_cons.mp hmem with he | ht
    · rw [he]
      exact le_foldl_max_init cs c
    · exact le_foldl_max_mem cs c _ ht
  exact Nat.lt_succ_of_le hle

end onehotencoder

namespace labelencoder

theorem code_of_mem {X : List PyStr} {v : PyStr} (hv : v ∈ X) :
    indexOfD (if v ∈ (fit X).classes then v else (fit X).unknown) (fit X).classes =
      indexOfD v (fit X).classes := by
  rw [if_pos (mem_fit_classes.mpr (Or.inr hv))]

theorem code_of_not_mem {X : List PyStr} {v : PyStr} (hv : v ∉ X) :
    indexOfD (if v ∈ (fit X).classes then v else (fit X).unknown) (fit X).classes =
      indexOfD (fit X).unknown (fit X).classes := by
  by_cases hc : v ∈ (fit X).classes
  · rcases mem_fit_classes.mp hc with h | h
    · rw [if_pos hc, h]
    · exact absurd h hv
  · rw [if_neg hc]

end labelencoder

/-! ### Claim C2: one-hot encoder output shape -/

/-- C2 (amended): after a successful fit, every row the one-hot encoder
returns has width equal to the number of distinct fit-time categories (the
sentinel gets no column of its own, since its code never occurs in the
fit-time codes); the row of a value seen at fit time sums to exactly 1 and the
row of an unseen value is the all-zero row.  An array of seen values always
transforms successfully; but when an unseen value occurs and the sentinel's
code falls outside the wrapped encoder's range `[0, n_values_)` — the case
where the sentinel sorts after every observed category — transform raises the
wrapped encoder's unknown-feature `ValueError` instead of returning rows. -/
theorem C2_onehot_rows (X Y : List PyStr) (st : onehotencoder.State)
    (hfit : onehotencoder.fit X = some st) :
    (∀ rows, onehotencoder.transform st Y = Except.ok rows →
      rows.length = Y.length ∧
      ∀ (i : Nat) (v : PyStr) (r : List Nat), Y[i]? = some v → rows[i]? = some r →
        r.length = (npUnique X).length ∧
        (v ∈ X → r.sum = 1) ∧
        (v ∉ X → r = List.replicate (npUnique X).length 0)) ∧
    ((∀ v ∈ Y, v ∈ X) → ∃ rows, onehotencoder.transform st Y = Except.ok rows) ∧
    (∀ v ∈ Y, v ∉ X →
      ¬ indexOfD st.le.unknown st.le.classes < st.n_values →
      onehotencoder.transform st Y =
        Except.error "unknown categorical feature present during transform") := by
  rcases onehotencoder.fit_eq_some hfit with ⟨c, cs, hc, hle, hnv, hac⟩
  refine ⟨?_, ?_, ?_⟩
  · intro rows hok
    simp only [onehotencoder.transform] at hok
    split at hok
    case isFalse => exact Except.noConfusion hok
    case isTrue hall =>
      have hrows : rows = (labelencoder.transform st.le Y).map (onehotencoder.row st) := by
        injection hok with h
        exact h.symm
      subst hrows
      constructor
      · rw [List.length_map, labelencoder.transform_map, List.length_map]
      · intro i v r hYi hri
        rw [labelencoder.transform_map, List.map_map, List.getElem?_map _ Y i, hYi,
          hle, Option.map_some', Option.some.injEq] at hri
        have hr : r = onehotencoder.row st
            (indexOfD (if v ∈ (labelencoder.fit X).classes then v
              else (labelencoder.fit X).unknown) (labelencoder.fit X).classes) := hri.symm
        subst hr
        refine ⟨?_, ?_, ?_⟩
        · rw [onehotencoder.row, List.length_map, hac, ← hc,
            onehotencoder.active_length]
        · intro hvX
          rw [labelencoder.code_of_mem hvX, onehotencoder.row, sum_map_indicator, hac, ← hc]
          exact List.count_eq_one_of_mem (npUnique_nodup _)
            (onehotencoder.indexOf_mem_active hvX)
        · intro hvX
          rw [labelencoder.code_of_not_mem hvX, onehotencoder.row]
          refine List.eq_replicate_iff.mpr ⟨?_, ?_⟩
          · rw [List.length_map, hac, ← hc, onehotencoder.active_length]
          · intro b hb
            rcases List.mem_map.mp hb with ⟨a, haAct, hab⟩
            have hne : a ≠ indexOfD (labelencoder.fit X).unknown
                (labelencoder.fit X).classes := by
              intro he
              rw [hac, ← hc] at haAct
              exact onehotencoder.indexOf_unknown_not_mem_active X (he ▸ haAct)
            rw [if_neg hne] at hab
            exact hab.symm
  · intro hall
    have hcond : ((labelencoder.transform st.le Y).all
        fun k => decide (k < st.n_values)) = true := by
      rw [List.all_eq_true]
      intro k hk
      rw [hle, labelencoder.transform_map] at hk
      rcases List.mem_map.mp hk with ⟨v, hvY, hvk⟩
      rw [labelencoder.code_of_mem (hall v hvY)] at hvk
      rw [decide_eq_true_eq, ← hvk, hnv]
      exact onehotencoder.code_lt_n_values (hall v hvY) hc
    refine ⟨(labelencoder.transform st.le Y).map (onehotencoder.row st), ?_⟩
    simp only [onehotencoder.transform]
    rw [if_pos hcond]
  · intro v hvY hvX hrange
    have hncond : ¬ (((labelencoder.transform st.le Y).all
        fun k => decide (k < st.n_values)) = true) := by
      rw [List.all_eq_true]
      intro hforall
      apply hrange
      have hmem : indexOfD st.le.unknown st.le.classes ∈
          labelencoder.transform st.le Y := by
        rw [hle, labelencoder.transform_map]
        exact List.mem_map.mpr ⟨v, hvY, labelencoder.code_of_not_mem hvX⟩
      have hlt := hforall _ hmem
      rwa [decide_eq_true_eq] at hlt
    simp only [onehotencoder.transform]
    rw [if_neg hncond]

theorem C2_onehot_rows_witness :
    ∃ (st : onehotencoder.State) (rows : List (List Nat)),
      onehotencoder.fit ["a".toList, "b".toList, "c".toList] = some st ∧
      onehotencoder.transform st ["a".toList, "v".toList] = Except.ok rows ∧
      ((["a".toList, "v".toList] : List PyStr)[1]? = some "v".toList) ∧
      ("v".toList ∉ ["a".toList, "b".toList, "c".toList]) ∧
      ∃ r, rows[1]? = some r ∧
        r.length = (npUnique ["a".toList, "b".toList, "c".toList]).length ∧
        r = List.replicate (npUnique ["a".toList, "b".toList, "c".toList]).length 0 := by
  refine ⟨_, _, rfl, rfl, rfl, by decide, ?_⟩
  have h := ((C2_onehot_rows ["a".toList, "b".toList, "c".toList] ["a".toList, "v".toList]
      _ rfl).1 _ rfl).2 1 "v".toList _ rfl rfl
  exact ⟨_, rfl, h.1, h.2.2 (by decide)⟩

/-- C2 counterexample: in the docstring example `fit(['a','b','c'])` followed by
`transform(['a','v','d'])` the rows are `[[1,0,0],[0,0,0],[0,0,0]]` — the width
is 3, not 3 + 1, and the rows of the two unseen values sum to 0, not 1; and
after `fit(['!'])`, where the sentinel sorts last, transforming the unseen
value `'z'` raises the wrapped encoder's `ValueError` instead of returning the
sentinel's basis vector. -/
theorem C2_counterexample :
    (onehotencoder.fit ["a".toList, "b".toList, "c".toList]).map
      (fun st => onehotencoder.transform st ["a".toList, "v".toList, "d".toList]) =
      some (Except.ok [[1, 0, 0], [0, 0, 0], [0, 0, 0]]) ∧
    ¬ (∀ r ∈ [[1, 0, 0], [0, 0, 0], [0, 0, 0]],
        List.length r = (npUnique ["a".toList, "b".toList, "c".toList]).length + 1) ∧
    ¬ (∀ r ∈ [[1, 0, 0], [0, 0, 0], [0, 0, 0]], List.sum r = 1) ∧
    (onehotencoder.fit ["!".toList]).map
      (fun st => onehotencoder.transform st ["z".toList]) =
      some (Except.error "unknown categorical feature present during transform") :=
  ⟨rfl, by decide, by decide, rfl⟩

/-! ### Count encoder -/

theorem lookupD_map_self {α β : Type} [DecidableEq α] (g : α → β) {L : List α} {k : α}
    (hk : k ∈ L) : lookupD k (L.map fun v => (v, g v)) = some (g k) := by
  induction L with
  | nil => cases hk
  | cons a t ih =>
    rw [List.map_cons, lookupD]
    by_cases h : a = k
    · subst h; simp
    · have hkt : k ∈ t := (List.mem_cons.mp hk).resolve_left fun he => h he.symm
      simp [h, ih hkt]

theorem lookupD_map_self_none {α β : Type} [DecidableEq α] (g : α → β) {L : List α} {k : α}
    (hk : k ∉ L) : lookupD k (L.map fun v => (v, g v)) = none := by
  induction L with
  | nil => rfl
  | cons a t ih =>
    rw [List.map_cons, lookupD]
    have hak : a ≠ k := fun he => hk (he ▸ List.mem_cons_self a t)
    have hkt : k ∉ t := fun he => hk (List.mem_cons_of_mem a he)
    simp [hak, ih hkt]

namespace countencoder

/-- The attributes a `countencoder` instance holds after `__init__`
(lines 149-152): `unseen_values` and `log_transform` are stored as passed, but
the configured smoothing is unconditionally overwritten with 1
(`self.smoothing = 1`, line 152). -/
structure Config where
  unseen_values : ℚ
  log_transform : Bool
  smoothing : ℚ

/-- `countencoder.__init__` (lines 149-152). -/
def init (unseen_values : ℚ) (log_transform : Bool) (smoothing : ℚ) : Config :=
  { unseen_values := unseen_values, log_transform := log_transform, smoothing := 1 }

/-- `countencoder.fit` (lines 154-160): `self.dmap = Counter(X)`, a map from
each observed value to its occurrence count (the key order of the Python dict
is irrelevant to lookup; keys are listed here in sorted order). -/
def fit (X : List PyStr) : List (PyStr × Nat) :=
  (npUnique X).map fun v => (v, X.count v)

/-- The numbers produced by `countencoder.transform` (line 168) before the
optional log: `dmap[i] + smoothing` for a seen value, `unseen_values` for an
unseen one. -/
def pre (cfg : Config) (dmap : List (PyStr × Nat)) (X : List PyStr) : List ℚ :=
  X.map fun i => match lookupD i dmap with
    | some c => (c : ℚ) + cfg.smoothing
    | none => cfg.unseen_values

/-- `countencoder.transform` (lines 162-171).  `np.log` is the natural
logarithm, passed in as `log` because it is transcendental on the
rationals-as-floats. -/
def transform (log : ℚ → ℝ) (cfg : Config) (dmap : List (PyStr × Nat)) (X : List PyStr) :
    List ℝ :=
  if cfg.log_transform then (pre cfg dmap X).map log
  else (pre cfg dmap X).map fun q => (q : ℝ)

theorem lookup_fit_of_mem {X : List PyStr} {w : PyStr} (hw : w ∈ X) :
    lookupD w (fit X) = some (X.count w) :=
  lookupD_map_self _ (mem_npUnique.mpr hw)

theorem lookup_fit_of_not_mem {X : List PyStr} {v : PyStr} (hv : v ∉ X) :
    lookupD v (fit X) = none :=
  lookupD_map_self_none _ (fun hm => hv (mem_npUnique.mp hm))

end countencoder

/-! ### Claim C5: count-encoder smoothing is fixed at 1 -/

/-- C5: whatever smoothing is passed to the constructor, the stored smoothing
is 1; with log-transform enabled a value seen at fit time is encoded as
`ln(count + 1)` and an unseen value as `ln(unseen_values)` (0 for the default
`unseen_values = 1`); on the documented inputs
`fit(['a','b','c','b','c','c']); transform(['a','c','b'])` the result is
`[ln 2, ln 4, ln 3]`. -/
theorem C5_count_smoothing_fixed (u s0 : ℚ) (X : List PyStr) (v w : PyStr)
    (hv : v ∉ X) (hw : w ∈ X) :
    (countencoder.init u true s0).smoothing = 1 ∧
    countencoder.transform (fun q => Real.log (q : ℝ)) (countencoder.init u true s0)
      (countencoder.fit X) [w] = [Real.log ((X.count w : ℝ) + 1)] ∧
    countencoder.transform (fun q => Real.log (q : ℝ)) (countencoder.init u true s0)
      (countencoder.fit X) [v] = [Real.log (u : ℝ)] ∧
    countencoder.transform (fun q => Real.log (q : ℝ)) (countencoder.init 1 true s0)
      (countencoder.fit X) [v] = [0] ∧
    countencoder.transform (fun q => Real.log (q : ℝ)) (countencoder.init 1 true s0)
      (countencoder.fit
        ["a".toList, "b".toList, "c".toList, "b".toList, "c".toList, "c".toList])
      ["a".toList, "c".toList, "b".toList] =
      [Real.log 2, Real.log 4, Real.log 3] := by
  have hcfg : ∀ u0 : ℚ, countencoder.init u0 true s0 =
      { unseen_values := u0, log_transform := true, smoothing := 1 } := fun _ => rfl
  refine ⟨rfl, ?_, ?_, ?_, ?_⟩
  · rw [countencoder.transform, hcfg]
    simp only [if_pos]
    rw [countencoder.pre, List.map_singleton, countencoder.lookup_fit_of_mem hw]
    simp
  · rw [countencoder.transform, hcfg]
    simp only [if_pos]
    rw [countencoder.pre, List.map_singleton, countencoder.lookup_fit_of_not_mem hv]
    rfl
  · rw [countencoder.transform, hcfg]
    simp only [if_pos]
    rw [countencoder.pre, List.map_singleton, countencoder.lookup_fit_of_not_mem hv]
    simp
  · rw [countencoder.transform, hcfg]
    simp only [if_pos]
    have h1 : lookupD "a".toList (countencoder.fit
        ["a".toList, "b".toList, "c".toList, "b".toList, "c".toList, "c".toList]) =
        some 1 := by decide
    have h2 : lookupD "c".toList (countencoder.fit
        ["a".toList, "b".toList, "c".toList, "b".toList, "c".toList, "c".toList]) =
        some 3 := by decide
    have h3 : lookupD "b".toList (countencoder.fit
        ["a".toList, "b".toList, "c".toList, "b".toList, "c".toList, "c".toList]) =
        some 2 := by decide
    simp only [countencoder.pre, List.map_cons, List.map_nil, List.map_map,
      Function.comp, h1, h2, h3]
    norm_num

theorem C5_count_smoothing_fixed_witness :
    (("z".toList : PyStr) ∉ [("a".toList : PyStr)] ∧ ("a".toList : PyStr) ∈
      [("a".toList : PyStr)]) ∧
    ((countencoder.init 5 true 7).smoothing = 1 ∧
    countencoder.transform (fun q => Real.log (q : ℝ)) (countencoder.init 5 true 7)
      (countencoder.fit ["a".toList]) ["a".toList] =
        [Real.log ((([("a".toList : PyStr)].count "a".toList : ℝ)) + 1)] ∧
    countencoder.transform (fun q => Real.log (q : ℝ)) (countencoder.init 5 true 7)
      (countencoder.fit ["a".toList]) ["z".toList] = [Real.log ((5 : ℚ) : ℝ)] ∧
    countencoder.transform (fun q => Real.log (q : ℝ)) (countencoder.init 1 true 7)
      (countencoder.fit ["a".toList]) ["z".toList] = [0] ∧
    countencoder.transform (fun q => Real.log (q : ℝ)) (countencoder.init 1 true 7)
      (countencoder.fit
        ["a".toList, "b".toList, "c".toList, "b".toList, "c".toList, "c".toList])
      ["a".toList, "c".toList, "b".toList] =
      [Real.log 2, Real.log 4, Real.log 3]) :=
  ⟨⟨by decide, by decide⟩,
    C5_count_smoothing_fixed 5 7 ["a".toList] "z".toList "a".toList (by decide) (by decide)⟩

/-! ### Target encoder -/

theorem lookupD_not_mem_keys {α β : Type} [DecidableEq α] {k : α} {l : List (α × β)}
    (h : k ∉ l.map Prod.fst) : lookupD k l = none := by
  induction l with
  | nil => rfl
  | cons p t ih =>
    rw [lookupD]
    have h1 : p.1 ≠ k := fun he => h (by simp [he])
    have h2 : k ∉ t.map Prod.fst := fun he => h (by simp [he])
    simp [h1, ih h2]

theorem map_snd_enumFrom {α : Type} : ∀ (n : Nat) (L : List α),
    (List.enumFrom n L).map Prod.snd = L := by
  intro n L
  induction L generalizing n with
  | nil => rfl
  | cons a t ih => simp [List.enumFrom, ih]

theorem lookupD_enumFrom_map {α β : Type} [DecidableEq α] (f : Nat → α → β) :
    ∀ (L : List α), L.Nodup → ∀ (i : Nat) (hi : i < L.length) (n : Nat),
      lookupD (L.get ⟨i, hi⟩) ((List.enumFrom n L).map fun p => (p.2, f p.1 p.2)) =
        some (f (n + i) (L.get ⟨i, hi⟩)) := by
  intro L
  induction L with
  | nil => intro _ i hi; cases hi
  | cons a t ih =>
    intro hL i hi n
    cases i with
    | zero => simp [List.enumFrom, lookupD]
    | succ j =>
      have hat : a ∉ t := (List.nodup_cons.mp hL).1
      have hj : j < t.length := Nat.lt_of_succ_lt_succ hi
      have hkey : (a :: t).get ⟨j + 1, hi⟩ = t.get ⟨j, hj⟩ := rfl
      have hne : a ≠ t.get ⟨j, hj⟩ := fun he => hat (he ▸ t.get_mem j hj)
      rw [hkey, List.enumFrom, List.map_cons, lookupD]
      simp only [if_neg hne]
      rw [ih (List.nodup_cons.mp hL).2 j hj (n + 1)]
      have harith : n + 1 + j = n + (j + 1) := by omega
      rw [harith]

namespace targetencoder

/-- The fitted state of a `targetencoder` instance (the attributes set by
`fit`, lines 212-216): the sorted distinct categories (`self.classes_`), the
noise draws (`self.bias`), the encoding map (`self.dmap`) and the global
target mean (`self.base_p`). -/
structure State (α K : Type) where
  classes : List α
  bias : List K
  dmap : List (α × K)
  base_p : K

/-- `y[X == key]` (line 218): the target values at the positions where the
category equals `key`. -/
def sel {α K : Type} [DecidableEq α] (X : List α) (ys : List K) (k : α) : List K :=
  (X.zip ys).filterMap fun q => if q.1 = k then some q.2 else none

/-- The state built by a successful `targetencoder.fit` (lines 209-221).
`gen` models the seeded Gaussian generator: `gen seed i` is the i-th entry of
`np.random.normal(0, random_noise, n)` drawn after `np.random.seed(seed)`
(lines 213-214), so the draws are a fixed function of the seed.  Arithmetic is
over a generic field `K` (exact floats; the division of line 219 and the mean
of line 216 are the field's total division). -/
def fitState {α K : Type} [LinearOrder α] [DecidableEq α] [Field K]
    (gen : Int → Nat → K) (smoothing : K) (random_seed : Int)
    (X : List α) (ys : List K) : State α K :=
  let classes := npUnique X
  let bias := (List.range classes.length).map (gen random_seed)
  let base_p := ys.sum / (ys.length : K)
  let dmap := classes.enum.map fun p =>
    let l := sel X ys p.2
    let pv := (l.sum + smoothing * (l.length : K) * base_p) /
      ((l.length : K) + smoothing * (l.length : K))
    (p.2, pv + bias.getD p.1 0)
  { classes := classes, bias := bias, dmap := dmap, base_p := base_p }

/-- `targetencoder.fit` (lines 203-221).  `y = none` models calling `fit`
without a target (`y=None`), which raises at line 207 before any attribute is
set. -/
def fit {α K : Type} [LinearOrder α] [DecidableEq α] [Field K]
    (gen : Int → Nat → K) (smoothing : K) (random_seed : Int)
    (X : List α) (y : Option (List K)) : Except String (State α K) :=
  match y with
  | none => Except.error "encoder need valid y label."
  | some ys => Except.ok (fitState gen smoothing random_seed X ys)

/-- `targetencoder.transform` (lines 223-225): a seen value maps to its stored
encoding, an unseen one to `base_p`. -/
def transform {α K : Type} [DecidableEq α] (st : State α K) (X : List α) : List K :=
  X.map fun i => match lookupD i st.dmap with
    | some p => p
    | none => st.base_p

/-- `targetencoder.fit` with the ambient global numpy RNG threaded explicitly.
`np.random.seed(self.random_seed)` (line 213) overwrites the global state
before any draw is taken, so the incoming state `rng` is ignored; the outgoing
state is a function of the seed alone (abstracted as the seed itself). -/
def fitR {α K : Type} [LinearOrder α] [DecidableEq α] [Field K]
    (gen : Int → Nat → K) (smoothing : K) (random_seed : Int)
    (X : List α) (y : Option (List K)) (rng : Int) :
    Except String (State α K) × Int :=
  (fit gen smoothing random_seed X y, random_seed)

theorem fitState_dmap_keys {α K : Type} [LinearOrder α] [DecidableEq α] [Field K]
    (gen : Int → Nat → K) (smoothing : K) (seed : Int) (X : List α) (ys : List K) :
    (fitState gen smoothing seed X ys).dmap.map Prod.fst = npUnique X := by
  show ((List.enumFrom 0 (npUnique X)).map _).map Prod.fst = npUnique X
  rw [List.map_map]
  have : ∀ p : Nat × α, (Prod.fst ∘ fun p : Nat × α =>
      (p.2, (((sel X ys p.2).sum + smoothing * ((sel X ys p.2).length : K) *
        (ys.sum / (ys.length : K))) /
        (((sel X ys p.2).length : K) + smoothing * ((sel X ys p.2).length : K))) +
        (((List.range (npUnique X).length).map (gen seed)).getD p.1 0))) p = p.2 :=
    fun p => rfl
  rw [funext this]
  exact map_snd_enumFrom 0 (npUnique X)
end targetencoder

theorem getD_map_range {K : Type} (f : Nat → K) (z : K) {i n : Nat} (hi : i < n) :
    ((List.range n).map f).getD i z = f i := by
  rw [List.getD_eq_getElem?_getD, List.getElem?_map, List.getElem?_range hi]
  rfl

/-! ### Claim C1: target-encoder fit formula, draw order, determinism -/

/-- C1: after `targetencoder.fit(X, y)` the stored classes are the distinct
categories in ascending sorted order; one noise draw is made per distinct
category, indexed in that sorted order, from the generator seeded with
`random_seed`; the stored encoding of the i-th sorted category `k` is the
m-estimate smoothed mean of `l = y[X == k]` — namely
`(sum l + smoothing * |l| * base_p) / (|l| + smoothing * |l|)` with `base_p`
the global mean of `y` — plus the i-th draw; and re-running `fit` with the same
inputs and seed from any ambient RNG state stores identical encodings. -/
theorem C1_target_fit_formula (gen : Int → Nat → ℝ) (smoothing : ℝ) (seed : Int)
    (X : List PyStr) (ys : List ℝ) (st : targetencoder.State PyStr ℝ)
    (hfit : targetencoder.fit gen smoothing seed X (some ys) = Except.ok st)
    (i : Nat) (hi : i < st.classes.length) :
    (st.classes = npUnique X ∧ st.classes.Sorted (· ≤ ·) ∧ st.classes.Nodup ∧
      (∀ a, a ∈ st.classes ↔ a ∈ X)) ∧
    st.bias = (List.range st.classes.length).map (gen seed) ∧
    lookupD (st.classes.get ⟨i, hi⟩) st.dmap = some
      ((((targetencoder.sel X ys (st.classes.get ⟨i, hi⟩)).sum
          + smoothing * ((targetencoder.sel X ys (st.classes.get ⟨i, hi⟩)).length : ℝ)
            * (ys.sum / (ys.length : ℝ)))
        / (((targetencoder.sel X ys (st.classes.get ⟨i, hi⟩)).length : ℝ)
          + smoothing * ((targetencoder.sel X ys (st.classes.get ⟨i, hi⟩)).length : ℝ)))
        + gen seed i) ∧
    (∀ r1 r2 : Int,
      (targetencoder.fitR gen smoothing seed X (some ys) r1).1 =
        (targetencoder.fitR gen smoothing seed X (some ys) r2).1) := by
  have hst : targetencoder.fitState gen smoothing seed X ys = st := by
    simpa [targetencoder.fit] using hfit
  subst hst
  refine ⟨⟨rfl, npUnique_sorted X, npUnique_nodup X, fun a => mem_npUnique⟩, rfl, ?_,
    fun r1 r2 => rfl⟩
  have hi' : i < (npUnique X).length := hi
  have hkey := lookupD_enumFrom_map
    (fun j k => ((targetencoder.sel X ys k).sum
        + smoothing * ((targetencoder.sel X ys k).length : ℝ) * (ys.sum / (ys.length : ℝ)))
      / (((targetencoder.sel X ys k).length : ℝ)
        + smoothing * ((targetencoder.sel X ys k).length : ℝ))
      + (((List.range (npUnique X).length).map (gen seed)).getD j 0))
    (npUnique X) (npUnique_nodup X) i hi' 0
  rw [Nat.zero_add] at hkey
  rw [getD_map_range (gen seed) 0 hi'] at hkey
  exact hkey

theorem C1_target_fit_formula_witness :
    ∃ (st : targetencoder.State PyStr ℝ) (hi : 0 < st.classes.length),
      targetencoder.fit (fun _ n => (n : ℝ)) 1 10 ["a".toList] (some [1]) = Except.ok st ∧
      lookupD (st.classes.get ⟨0, hi⟩) st.dmap = some
        ((((targetencoder.sel ["a".toList] [1] (st.classes.get ⟨0, hi⟩)).sum
            + 1 * ((targetencoder.sel ["a".toList] [1] (st.classes.get ⟨0, hi⟩)).length : ℝ)
              * (List.sum [(1 : ℝ)] / ((List.length [(1 : ℝ)]) : ℝ)))
          / (((targetencoder.sel ["a".toList] [1] (st.classes.get ⟨0, hi⟩)).length : ℝ)
            + 1 * ((targetencoder.sel ["a".toList] [1] (st.classes.get ⟨0, hi⟩)).length : ℝ)))
          + ((0 : Nat) : ℝ)) := by
  refine ⟨targetencoder.fitState (fun _ n => (n : ℝ)) 1 10 ["a".toList] [1], ?_, rfl, ?_⟩
  · show 0 < (npUnique ["a".toList]).length
    decide
  · exact (C1_target_fit_formula (fun _ n => (n : ℝ)) 1 10 ["a".toList] [1] _ rfl 0
      (by decide)).2.2.1

/-! ### Claim C6: fit requires a target -/

/-- C6: `targetencoder.fit` fails with the invalid-input error exactly when the
target is missing: with `y=None` it raises `'encoder need valid y label.'`
before installing any state, and with any non-null target it does not raise. -/
theorem C6_target_fit_requires_y (gen : Int → Nat → ℝ) (smoothing : ℝ) (seed : Int)
    (X : List PyStr) :
    targetencoder.fit gen smoothing seed X none =
      Except.error "encoder need valid y label." ∧
    ∀ ys : List ℝ, ∃ st, targetencoder.fit gen smoothing seed X (some ys) = Except.ok st :=
  ⟨rfl, fun ys => ⟨targetencoder.fitState gen smoothing seed X ys, rfl⟩⟩

/-! ### Claim C7: target-encoder transform -/

/-- C7: after a successful fit, `transform` maps a category with a stored
encoding to exactly that stored (noised) value, and maps every value unseen at
fit time to exactly `base_p`, the unnoised global mean of `y`. -/
theorem C7_target_transform (gen : Int → Nat → ℝ) (smoothing : ℝ) (seed : Int)
    (X : List PyStr) (ys : List ℝ) (st : targetencoder.State PyStr ℝ)
    (hfit : targetencoder.fit gen smoothing seed X (some ys) = Except.ok st) (v : PyStr) :
    (∀ p, lookupD v st.dmap = some p → targetencoder.transform st [v] = [p]) ∧
    (v ∉ X → targetencoder.transform st [v] = [ys.sum / ((ys.length : ℝ))] ∧
      st.base_p = ys.sum / ((ys.length : ℝ))) := by
  have hst : targetencoder.fitState gen smoothing seed X ys = st := by
    simpa [targetencoder.fit] using hfit
  subst hst
  constructor
  · intro p hp
    rw [targetencoder.transform, List.map_singleton, hp]
  · intro hv
    have hnone : lookupD v (targetencoder.fitState gen smoothing seed X ys).dmap = none := by
      apply lookupD_not_mem_keys
      rw [targetencoder.fitState_dmap_keys]
      exact fun hm => hv (mem_npUnique.mp hm)
    refine ⟨?_, rfl⟩
    rw [targetencoder.transform, List.map_singleton, hnone]
    rfl

theorem C7_target_transform_witness :
    ∃ st : targetencoder.State PyStr ℝ,
      targetencoder.fit (fun _ _ => (0 : ℝ)) 1 10 ["a".toList] (some [1]) = Except.ok st ∧
      ("b".toList ∉ [("a".toList : PyStr)]) ∧
      targetencoder.transform st ["b".toList] =
        [List.sum [(1 : ℝ)] / ((List.length [(1 : ℝ)]) : ℝ)] :=
  ⟨targetencoder.fitState (fun _ _ => (0 : ℝ)) 1 10 ["a".toList] [1], rfl, by decide,
    ((C7_target_transform (fun _ _ => (0 : ℝ)) 1 10 ["a".toList] [1] _ rfl "b".toList).2
      (by decide)).1⟩

/-! ### Claim C9: fit calls on distinct instances do not interact -/

/-- C9: the result of `targetencoder.fit` is the same from any ambient global
RNG state — in particular, whether or not another instance's `fit` (with its
own configuration and inputs) ran first — because `fit` re-seeds the generator
with its own `random_seed` before drawing; the other encoders' `fit` methods
read no ambient state at all. -/
theorem C9_fit_instance_independence (gen : Int → Nat → ℝ)
    (smA smB : ℝ) (seedA seedB : Int) (XA XB : List PyStr)
    (yA yB : Option (List ℝ)) (rng r1 r2 : Int) :
    (targetencoder.fitR gen smB seedB XB yB r1).1 =
      (targetencoder.fitR gen smB seedB XB yB r2).1 ∧
    (targetencoder.fitR gen smB seedB XB yB
        (targetencoder.fitR gen smA seedA XA yA rng).2).1 =
      (targetencoder.fitR gen smB seedB XB yB rng).1 :=
  ⟨rfl, rfl⟩

/-! ### Claim C8: transform is pure -/

namespace labelencoder

/-- `labelencoder.transform` viewed as a state transformer: the method body
(lines 62-68) writes only local variables, so the instance state is returned
unchanged. -/
def transformM (s : State) (X : List PyStr) : List Nat × State :=
  (transform s X, s)

end labelencoder

namespace onehotencoder

/-- `onehotencoder.transform` viewed as a state transformer (lines 118-124):
no instance attribute is written. -/
def transformM (s : State) (X : List PyStr) :
    Except String (List (List Nat)) × State :=
  (transform s X, s)

end onehotencoder

namespace countencoder

/-- `countencoder.transform` viewed as a state transformer (lines 162-171):
the instance state is the configuration and the fitted counter; neither is
written. -/
def transformM (log : ℚ → ℝ) (cfg : Config) (dmap : List (PyStr × Nat)) (X : List PyStr) :
    List ℝ × (Config × List (PyStr × Nat)) :=
  (transform log cfg dmap X, (cfg, dmap))

end countencoder

namespace targetencoder

/-- `targetencoder.transform` viewed as a state transformer (lines 223-225):
no instance attribute is written. -/
def transformM {α K : Type} [DecidableEq α] (st : State α K) (X : List α) :
    List K × State α K :=
  (transform st X, st)

end targetencoder

/-- C8: for every encoder, `transform` leaves the fitted instance state
unchanged (encoding map, sentinel, classes, base_p), and two successive
`transform` calls on the same input return identical results. -/
theorem C8_transform_pure (ls : labelencoder.State) (os : onehotencoder.State)
    (cfg : countencoder.Config) (cd : List (PyStr × Nat)) (lg : ℚ → ℝ)
    (ts : targetencoder.State PyStr ℝ) (X : List PyStr) :
    ((labelencoder.transformM ls X).2 = ls ∧
      (labelencoder.transformM (labelencoder.transformM ls X).2 X).1 =
        (labelencoder.transformM ls X).1) ∧
    ((onehotencoder.transformM os X).2 = os ∧
      (onehotencoder.transformM (onehotencoder.transformM os X).2 X).1 =
        (onehotencoder.transformM os X).1) ∧
    ((countencoder.transformM lg cfg cd X).2 = (cfg, cd) ∧
      (countencoder.transformM lg (countencoder.transformM lg cfg cd X).2.1
          (countencoder.transformM lg cfg cd X).2.2 X).1 =
        (countencoder.transformM lg cfg cd X).1) ∧
    ((targetencoder.transformM ts X).2 = ts ∧
      (targetencoder.transformM (targetencoder.transformM ts X).2 X).1 =
        (targetencoder.transformM ts X).1) :=
  ⟨⟨rfl, rfl⟩, ⟨rfl, rfl⟩, ⟨rfl, rfl⟩, ⟨rfl, rfl⟩⟩

/-! ### Model evaluation script (`model_evaluation.py`) -/

namespace model_evaluation

/-- The `params` argument of `xgb_model_evaluation` (lines 60, 75-80): either
the name of one of the two module-level hyperparameter dicts, or a
caller-supplied dict (used as-is). -/
inductive ParamsArg (P : Type) where
  | gbtree : ParamsArg P
  | gblinear : ParamsArg P
  | custom : P → ParamsArg P

/-- One record appended to `dic_cv` per fold (lines 111-115). -/
structure FoldMetrics where
  train_auc : ℚ
  val_auc : ℚ
  test_auc : ℚ
deriving DecidableEq

/-- The external ingredients the script calls, abstracted: the two module-level
hyperparameter dicts, `xgb.train` (watchlist and early stopping folded in),
`Booster.predict`, `roc_auc_score`, `train_test_split`, and
`StratifiedKFold(n_splits, shuffle=True, random_state).split`.  `R` is a
feature row, `P` a parameter dict, `M` a trained booster; scores are exact
rationals. -/
structure Env (R P M : Type) where
  paramsTree : P
  paramsLinear : P
  setPosWeight : P → ℚ → P
  train : P → List R → List ℚ → M
  predict : M → List R → List ℚ
  auc : List ℚ → List ℚ → ℚ
  splitTT : List R → List ℚ → ℚ → Int → List R × List R × List ℚ × List ℚ
  skf : Nat → Int → List R → List ℚ → List (List Nat × List Nat)

/-- `df.iloc[idx]` for an index list. -/
def iloc {β : Type} (l : List β) (idx : List Nat) : List β :=
  idx.filterMap fun i => l[i]?

/-- `pn_ratio` (lines 72-73): if not supplied, the ratio of negative (== 0) to
positive (== 1) examples over the full target vector, computed once before any
split. -/
def pnRatioQ (target : List ℚ) (pn : Option ℚ) : ℚ :=
  match pn with
  | none => ((target.count 0 : ℚ) / (target.count 1 : ℚ))
  | some r => r

/-- Parameter resolution (lines 75-80): each named dict gets
`scale_pos_weight` set to `pn_ratio`; a supplied dict is used unchanged. -/
def resolveParams {R P M : Type} (env : Env R P M) : ParamsArg P → ℚ → P
  | ParamsArg.gbtree, r => env.setPosWeight env.paramsTree r
  | ParamsArg.gblinear, r => env.setPosWeight env.paramsLinear r
  | ParamsArg.custom p, _ => p

/-- `xgb_model_evaluation` (lines 60-129): resolve the parameter dict; split
off a test partition when none was supplied (both `test` and `test_y` absent,
line 82); if `n_folds` is truthy, run stratified k-fold cross-validation,
training one booster per fold and (when `test_size > 0`, line 109) recording
train/validation/test AUC; finally train one booster on the full training
partition and return it with the per-fold records and the test and train
prediction tables pairing true labels with predicted scores. -/
def xgb_model_evaluation {R P M : Type} (env : Env R P M)
    (df : List R) (target : List ℚ) (testO : Option (List R)) (testYO : Option (List ℚ))
    (paramsArg : ParamsArg P) (n_folds : Nat) (test_size : ℚ) (random_state : Int)
    (pn : Option ℚ) : M × List FoldMetrics × List (ℚ × ℚ) × List (ℚ × ℚ) :=
  let params := resolveParams env paramsArg (pnRatioQ target pn)
  let tttt : List R × List R × List ℚ × List ℚ :=
    match testO, testYO with
    | none, none => env.splitTT df target test_size random_state
    | t, ty => (df, t.getD [], target, ty.getD [])
  let train := tttt.1
  let test := tttt.2.1
  let train_y := tttt.2.2.1
  let test_y := tttt.2.2.2
  let dic_cv : List FoldMetrics :=
    if n_folds ≠ 0 then
      (env.skf n_folds random_state train train_y).filterMap fun tv =>
        let tra := iloc train tv.1
        let val := iloc train tv.2
        let tra_y := iloc train_y tv.1
        let val_y := iloc train_y tv.2
        let bst := env.train params tra tra_y
        if 0 < test_size then
          some { train_auc := env.auc tra_y (env.predict bst tra),
                 val_auc := env.auc val_y (env.predict bst val),
                 test_auc := env.auc test_y (env.predict bst test) }
        else none
    else []
  let bst := env.train params train train_y
  let df_test := test_y.zip (env.predict bst test)
  let df_train := train_y.zip (env.predict bst train)
  (bst, dic_cv, df_test, df_train)

end model_evaluation

/-! ### Claim C10: n_folds = 0 skips cross-validation -/

/-- C10: with `n_folds = 0` the cross-validation loop is skipped entirely (the
returned per-fold metric list is empty), yet one model is still trained on the
full training partition and returned together with the test and train
prediction tables pairing true labels with predicted scores — both when the
test partition is split off and when it is supplied. -/
theorem C10_nfolds_zero {R P M : Type} (env : model_evaluation.Env R P M)
    (df : List R) (target : List ℚ) (paramsArg : model_evaluation.ParamsArg P)
    (test_size : ℚ) (rs : Int) (pn : Option ℚ)
    (tr te : List R) (trY teY : List ℚ)
    (hsplit : env.splitTT df target test_size rs = (tr, te, trY, teY)) :
    (let params := model_evaluation.resolveParams env paramsArg
        (model_evaluation.pnRatioQ target pn)
     let bst := env.train params tr trY
     model_evaluation.xgb_model_evaluation env df target none none paramsArg 0 test_size
        rs pn =
       (bst, [], teY.zip (env.predict bst te), trY.zip (env.predict bst tr))) ∧
    (∀ (te2 : List R) (teY2 : List ℚ),
     let params := model_evaluation.resolveParams env paramsArg
        (model_evaluation.pnRatioQ target pn)
     let bst := env.train params df target
     model_evaluation.xgb_model_evaluation env df target (some te2) (some teY2) paramsArg 0
        test_size rs pn =
       (bst, [], teY2.zip (env.predict bst te2), target.zip (env.predict bst df))) := by
  constructor
  · simp [model_evaluation.xgb_model_evaluation, hsplit]
  · intro te2 teY2
    simp [model_evaluation.xgb_model_evaluation]

/-- A trivial concrete instantiation of the external environment, used to
exercise the evaluation script on explicit inputs. -/
def toyEnv : model_evaluation.Env Nat Nat Nat :=
  { paramsTree := 0, paramsLinear := 1, setPosWeight := fun p _ => p,
    train := fun _ r y => r.length + y.length,
    predict := fun m r => r.map fun _ => (m : ℚ),
    auc := fun _ _ => 0,
    splitTT := fun d t _ _ => (d, [], t, []),
    skf := fun _ _ _ _ => [] }

theorem C10_nfolds_zero_witness :
    toyEnv.splitTT [5] [1] (1 / 5) 7 = ([5], [], [1], []) ∧
    (let params := model_evaluation.resolveParams toyEnv
        model_evaluation.ParamsArg.gbtree (model_evaluation.pnRatioQ [1] none)
     let bst := toyEnv.train params [5] [1]
     model_evaluation.xgb_model_evaluation toyEnv [5] [1] none none
        model_evaluation.ParamsArg.gbtree 0 (1 / 5) 7 none =
       (bst, [], List.zip [] (toyEnv.predict bst []),
        List.zip [1] (toyEnv.predict bst [5]))) :=
  ⟨rfl, (C10_nfolds_zero toyEnv [5] [1] model_evaluation.ParamsArg.gbtree (1 / 5) 7 none
    [5] [] [1] [] rfl).1⟩
